import Mathlib

/-!
Shallow embedding of the confusion-matrix accumulation and score-derivation
engine of `cityscapesscripts/evaluation/evalPixelLevelSemanticLabelingCustomAllBetween.py`.

The label taxonomy (`labels`, `id2label`, `category2labels` from the helper
module) is an externally supplied immutable table; the development is
parameterized over it.  Confusion matrices are embedded as functions
`ℕ → ℕ → ℕ` together with an explicit size `n` (the source allocates a
`(maxId+1) × (maxId+1)` array of unsigned integers).  Python floats are
embedded as rationals; the `(NaN, NaN)` "undefined score" results are
embedded as `none`; `KeyError` dictionary failures and the fatal
`printError` aborts (which call `sys.exit`) are embedded as `Except.error`.
The Python pixel loop (the portable reference path of `evaluatePair`) is
the accumulation semantics being modelled.
-/

/-- One label of the externally supplied taxonomy table. -/
structure CsLabel where
  id : Int
  name : String
  category : String
  hasInstances : Bool
  ignoreInEval : Bool
deriving DecidableEq, Repr

/-- The `id2label` dictionary built from the taxonomy: `label.id ↦ label`.
A Python dict comprehension lets later entries overwrite earlier ones, so the
last label with a given id wins. -/
def id2label (tax : List CsLabel) (i : Int) : Option CsLabel :=
  tax.reverse.find? (fun lab => lab.id == i)

/-- The list of evaluated label ids built by `generateMatrix`: every
non-negative label id of the taxonomy, in table order. -/
def evalLabelsOf (tax : List CsLabel) : List ℕ :=
  (tax.filter (fun lab => 0 ≤ lab.id)).map (fun lab => lab.id.toNat)

/-- `id2label[l].ignoreInEval` as a Boolean on ids.  An id outside the
taxonomy would raise a `KeyError` in the source; it is mapped to `true`
here, which is only ever relied on for ids drawn from the taxonomy
(`args.evalLabels` is built from the taxonomy, so the default is unused). -/
def labIgnoredB (tax : List CsLabel) (l : ℕ) : Bool :=
  match id2label tax (l : Int) with
  | some lab => lab.ignoreInEval
  | none => true

/-- `not id2label[l].ignoreInEval`, the row filter used for false-positive
column sums and for the pixel-accuracy mask. -/
def rowNotIgnored (tax : List CsLabel) (l : ℕ) : Bool :=
  ! labIgnoredB tax l

/-- Sum of all entries of an `n × n` confusion matrix (`confMatrix.sum()`). -/
def matSum (n : ℕ) (M : ℕ → ℕ → ℕ) : ℕ :=
  ∑ i ∈ Finset.range n, ∑ j ∈ Finset.range n, M i j

/-- Row sum `confMatrix[i,:].sum()` of an `n × n` matrix. -/
def rowSum (n : ℕ) (M : ℕ → ℕ → ℕ) (i : ℕ) : ℕ :=
  ∑ j ∈ Finset.range n, M i j

/-- `confMatrix[rows, j].sum()`: the column-`j` sum restricted to the listed
rows. -/
def colSumOver (rows : List ℕ) (M : ℕ → ℕ → ℕ) (j : ℕ) : ℕ :=
  (rows.map (fun r => M r j)).sum

/-- `getIouScoreForLabel`: IoU score and ground-truth count for one label.
`Except.error` models the `KeyError` of an id absent from `id2label`;
`.ok none` models the `(NaN, NaN)` return. -/
def getIouScoreForLabel (tax : List CsLabel) (evalLabels : List ℕ) (n : ℕ)
    (M : ℕ → ℕ → ℕ) (label : ℕ) : Except String (Option (ℚ × ℚ)) :=
  match id2label tax (label : Int) with
  | none => .error "KeyError: id2label"
  | some lab =>
    if lab.ignoreInEval then .ok none
    else
      let tp : ℚ := (M label label : ℚ)
      let gt : ℚ := (rowSum n M label : ℚ)
      let fn : ℚ := gt - tp
      let notIgnored : List ℕ :=
        evalLabels.filter (fun l => rowNotIgnored tax l && ! (l == label))
      let fp : ℚ := (colSumOver notIgnored M label : ℚ)
      let denom : ℚ := tp + fp + fn
      if denom = 0 then .ok none else .ok (some (tp / denom, gt))

/-- The false-positive count as the claim states it: the column-`label` sum
over the rows of `EvalLabelSet` that are neither `ignoreInEval` nor the label
itself. -/
def fpClaim (tax : List CsLabel) (evalLabels : List ℕ) (M : ℕ → ℕ → ℕ)
    (label : ℕ) : ℕ :=
  (evalLabels.map (fun l =>
    if l = label ∨ labIgnoredB tax l then 0 else M l label)).sum

lemma colSumOver_cons (r : ℕ) (rows : List ℕ) (M : ℕ → ℕ → ℕ) (j : ℕ) :
    colSumOver (r :: rows) M j = M r j + colSumOver rows M j := rfl

lemma fpClaim_cons (tax : List CsLabel) (l : ℕ) (rest : List ℕ)
    (M : ℕ → ℕ → ℕ) (label : ℕ) :
    fpClaim tax (l :: rest) M label =
      (if l = label ∨ labIgnoredB tax l then 0 else M l label) +
        fpClaim tax rest M label := rfl

lemma fpClaim_eq (tax : List CsLabel) (M : ℕ → ℕ → ℕ) (label : ℕ) :
    ∀ evalLabels : List ℕ,
      colSumOver
        (evalLabels.filter (fun l => rowNotIgnored tax l && ! (l == label)))
        M label = fpClaim tax evalLabels M label := by
  intro evalLabels
  induction evalLabels with
  | nil => rfl
  | cons l rest ih =>
    rw [fpClaim_cons, List.filter_cons]
    by_cases h1 : l = label
    · have hp : (rowNotIgnored tax l && ! (l == label)) = false := by
        simp [h1]
      rw [hp, if_neg (by simp), ih, if_pos (Or.inl h1), Nat.zero_add]
    · by_cases h2 : labIgnoredB tax l = true
      · have hp : (rowNotIgnored tax l && ! (l == label)) = false := by
          simp [rowNotIgnored, h2]
        rw [hp, if_neg (by simp), ih, if_pos (Or.inr h2), Nat.zero_add]
      · have h2f : labIgnoredB tax l = false := by simpa using h2
        have hp : (rowNotIgnored tax l && ! (l == label)) = true := by
          simp [rowNotIgnored, h2f, h1]
        rw [hp, if_pos rfl, colSumOver_cons, ih,
          if_neg (by simp [h1, h2f])]

/-- Claim C1: for a label of the evaluation set that is not `ignoreInEval`,
the per-label semantic IoU equals `tp / (tp + fp + fn)` with
`tp = matrix[label][label]`, `fn = row_sum(matrix[label]) - tp`, and `fp`
the column sum over non-ignored rows of the evaluation set other than the
label itself; if `tp + fp + fn = 0` the result is the `(NaN, NaN)` pair
(embedded as `none`), and otherwise the second component is the row sum. -/
theorem c1_iou_score (tax : List CsLabel) (evalLabels : List ℕ) (n : ℕ)
    (M : ℕ → ℕ → ℕ) (label : ℕ) (lab : CsLabel)
    (h1 : id2label tax (label : Int) = some lab)
    (h2 : lab.ignoreInEval = false) :
    getIouScoreForLabel tax evalLabels n M label =
      (let tp : ℚ := (M label label : ℚ)
       let gt : ℚ := (rowSum n M label : ℚ)
       let fn : ℚ := gt - tp
       let fp : ℚ := (fpClaim tax evalLabels M label : ℚ)
       if tp + fp + fn = 0 then .ok none
       else .ok (some (tp / (tp + fp + fn), gt))) := by
  simp only [getIouScoreForLabel, h1, h2, Bool.false_eq_true, if_false,
    fpClaim_eq tax M label evalLabels]

/-- A two-label taxonomy used for the C1 witness. -/
def c1Tax : List CsLabel :=
  [⟨7, "road", "flat", false, false⟩, ⟨9, "parking", "flat", false, true⟩]

/-- A concrete confusion matrix used for the C1 witness. -/
def c1Mat : ℕ → ℕ → ℕ := fun i j =>
  if i = 7 ∧ j = 7 then 3 else if i = 7 ∧ j = 9 then 1 else 0

/-- Witness for C1 at a concrete taxonomy, matrix and label. -/
theorem c1_iou_score_witness :
    getIouScoreForLabel c1Tax [7, 9] 10 c1Mat 7 = Except.ok (some (3 / 4, 4)) := by
  rw [c1_iou_score c1Tax [7, 9] 10 c1Mat 7 ⟨7, "road", "flat", false, false⟩
    (by decide) rfl]
  norm_num [rowSum, fpClaim, labIgnoredB, id2label, c1Mat,
    Finset.sum_range_succ, Finset.sum_range_zero]

/-! ### Confusion-matrix accumulation (evaluatePair / evaluateImgLists) -/

/-- The all-zero confusion matrix produced by `generateMatrix`. -/
def zeroMat : ℕ → ℕ → ℕ := fun _ _ => 0

/-- `confMatrix[gt][pred] += 1`. -/
def bump (M : ℕ → ℕ → ℕ) (g p : ℕ) : ℕ → ℕ → ℕ :=
  fun a b => if a = g ∧ b = p then M a b + 1 else M a b

/-- The per-pixel loop of `evaluatePair` (the portable Python path): for each
`(groundTruth, prediction)` pixel, abort with the fatal unknown-label error
when the ground-truth value is not in `evalLabels`, otherwise increment
`confMatrix[gt][pred]` in place.  The first component is the matrix as
mutated so far at the moment the loop stops (the source mutates the shared
array in place, so pixels preceding an offending one are already counted
when `printError` exits); the second is the error, if any. -/
def accPixels (evalLabels : List ℕ) :
    List (ℕ × ℕ) → (ℕ → ℕ → ℕ) → ((ℕ → ℕ → ℕ) × Option String)
  | [], M => (M, none)
  | q :: rest, M =>
      if q.1 ∈ evalLabels then accPixels evalLabels rest (bump M q.1 q.2)
      else (M, some ("Unknown label with id " ++ toString q.1))

/-- `evaluatePair` restricted to its confusion-matrix effect: on success it
returns the updated matrix together with `nbPixels = width*height` (the
number of pixels of the pair). -/
def evaluatePairPx (evalLabels : List ℕ) (pixels : List (ℕ × ℕ))
    (M : ℕ → ℕ → ℕ) : Except String ((ℕ → ℕ → ℕ) × ℕ) :=
  match accPixels evalLabels pixels M with
  | (M2, none) => .ok (M2, pixels.length)
  | (_, some e) => .error e

/-- The pair loop of `evaluateImgLists`: accumulate each pair and, after each
pair, abort with the fatal consistency error unless the matrix total equals
the running pixel count. -/
def evalLoop (evalLabels : List ℕ) (n : ℕ) :
    List (List (ℕ × ℕ)) → (ℕ → ℕ → ℕ) → ℕ →
      Except String ((ℕ → ℕ → ℕ) × ℕ)
  | [], M, nbPixels => .ok (M, nbPixels)
  | pair :: rest, M, nbPixels =>
      match evaluatePairPx evalLabels pair M with
      | .error e => .error e
      | .ok (M2, k) =>
          if matSum n M2 = nbPixels + k then
            evalLoop evalLabels n rest M2 (nbPixels + k)
          else
            .error "Number of analyzed pixels and entries in confusion matrix disagree"

lemma matSum_bump (n : ℕ) (M : ℕ → ℕ → ℕ) (g p : ℕ) (hg : g < n) (hp : p < n) :
    matSum n (bump M g p) = matSum n M + 1 := by
  unfold matSum bump
  have hsplit : ∀ i j : ℕ,
      (if i = g ∧ j = p then M i j + 1 else M i j) =
        M i j + (if i = g then (if j = p then 1 else 0) else 0) := by
    intro i j
    by_cases h1 : i = g <;> by_cases h2 : j = p <;> simp [h1, h2]
  simp only [hsplit, Finset.sum_add_distrib]
  have hinner : ∀ i : ℕ,
      (∑ j ∈ Finset.range n, (if i = g then (if j = p then 1 else 0) else 0)) =
        (if i = g then 1 else 0) := by
    intro i
    by_cases h1 : i = g
    · simp [h1, Finset.sum_ite_eq, Finset.mem_range, hp]
    · simp [h1]
  rw [Finset.sum_congr rfl (fun i _ => hinner i)]
  simp [Finset.sum_ite_eq, Finset.mem_range, hg]

lemma accPixels_valid (evalLabels : List ℕ) (n : ℕ) :
    ∀ (pixels : List (ℕ × ℕ)) (M : ℕ → ℕ → ℕ),
      (∀ q ∈ pixels, q.1 ∈ evalLabels ∧ q.1 < n ∧ q.2 < n) →
      (accPixels evalLabels pixels M).2 = none ∧
        matSum n (accPixels evalLabels pixels M).1 =
          matSum n M + pixels.length := by
  intro pixels
  induction pixels with
  | nil => intro M _; simp [accPixels]
  | cons q rest ih =>
    intro M h
    have hq := h q (List.mem_cons_self q rest)
    have hrest : ∀ r ∈ rest, r.1 ∈ evalLabels ∧ r.1 < n ∧ r.2 < n :=
      fun r hr => h r (List.mem_cons_of_mem q hr)
    have step : accPixels evalLabels (q :: rest) M =
        accPixels evalLabels rest (bump M q.1 q.2) := by
      simp [accPixels, hq.1]
    rw [step]
    rcases ih (bump M q.1 q.2) hrest with ⟨h1, h2⟩
    refine ⟨h1, ?_⟩
    rw [h2, matSum_bump n M q.1 q.2 hq.2.1 hq.2.2]
    simp [List.length_cons]
    ring

lemma evaluatePairPx_valid (evalLabels : List ℕ) (n : ℕ)
    (pixels : List (ℕ × ℕ)) (M : ℕ → ℕ → ℕ)
    (h : ∀ q ∈ pixels, q.1 ∈ evalLabels ∧ q.1 < n ∧ q.2 < n) :
    evaluatePairPx evalLabels pixels M =
      .ok ((accPixels evalLabels pixels M).1, pixels.length) ∧
      matSum n (accPixels evalLabels pixels M).1 =
        matSum n M + pixels.length := by
  rcases accPixels_valid evalLabels n pixels M h with ⟨h1, h2⟩
  constructor
  · unfold evaluatePairPx
    rcases hacc : accPixels evalLabels pixels M with ⟨M2, err⟩
    rw [hacc] at h1
    simp at h1
    subst h1
    simp
  · exact h2

lemma evalLoop_valid (evalLabels : List ℕ) (n : ℕ) :
    ∀ (pairs : List (List (ℕ × ℕ))) (M : ℕ → ℕ → ℕ) (nb : ℕ),
      (∀ pair ∈ pairs, ∀ q ∈ pair, q.1 ∈ evalLabels ∧ q.1 < n ∧ q.2 < n) →
      matSum n M = nb →
      ∃ Mk, evalLoop evalLabels n pairs M nb =
          .ok (Mk, nb + (pairs.map List.length).sum) ∧
        matSum n Mk = nb + (pairs.map List.length).sum := by
  intro pairs
  induction pairs with
  | nil =>
    intro M nb _ hM
    exact ⟨M, by simp [evalLoop], by simpa using hM⟩
  | cons pair rest ih =>
    intro M nb h hM
    have hpair := h pair (List.mem_cons_self pair rest)
    have hrest : ∀ p ∈ rest, ∀ q ∈ p, q.1 ∈ evalLabels ∧ q.1 < n ∧ q.2 < n :=
      fun p hp => h p (List.mem_cons_of_mem pair hp)
    rcases evaluatePairPx_valid evalLabels n pair M hpair with ⟨hok, hsum⟩
    have hsum2 : matSum n (accPixels evalLabels pair M).1 = nb + pair.length := by
      rw [hsum, hM]
    rcases ih (accPixels evalLabels pair M).1 (nb + pair.length) hrest hsum2 with
      ⟨Mk, hloop, hMk⟩
    refine ⟨Mk, ?_, ?_⟩
    · rw [evalLoop, hok]
      simp only [hsum2, if_pos rfl, hloop]
      simp [List.map_cons, List.sum_cons, Nat.add_assoc]
    · rw [hMk]
      simp [List.map_cons, List.sum_cons, Nat.add_assoc]

/-- Claim C2: starting from the zero matrix, after each prefix of the pair
list (and hence after all pairs) the sum of all confusion-matrix entries
equals the running sum of the per-pair pixel counts `width_i * height_i`;
and whenever the post-pair consistency comparison fails, the loop aborts
with a fatal error instead of continuing. -/
theorem c2_matrix_conservation (evalLabels : List ℕ) (n : ℕ)
    (pairs : List (List (ℕ × ℕ)))
    (h : ∀ pair ∈ pairs, ∀ q ∈ pair, q.1 ∈ evalLabels ∧ q.1 < n ∧ q.2 < n) :
    (∀ k : ℕ, ∃ Mk,
      evalLoop evalLabels n (pairs.take k) zeroMat 0 =
          .ok (Mk, ((pairs.take k).map List.length).sum) ∧
        matSum n Mk = ((pairs.take k).map List.length).sum) ∧
    (∀ (M : ℕ → ℕ → ℕ) (nb : ℕ) (pair : List (ℕ × ℕ))
        (rest : List (List (ℕ × ℕ))) (M2 : ℕ → ℕ → ℕ) (k : ℕ),
      evaluatePairPx evalLabels pair M = .ok (M2, k) →
      matSum n M2 ≠ nb + k →
      evalLoop evalLabels n (pair :: rest) M nb =
        .error "Number of analyzed pixels and entries in confusion matrix disagree") := by
  constructor
  · intro k
    have htake : ∀ pair ∈ pairs.take k, ∀ q ∈ pair,
        q.1 ∈ evalLabels ∧ q.1 < n ∧ q.2 < n :=
      fun pair hp => h pair (List.mem_of_mem_take hp)
    have hz : matSum n zeroMat = 0 := by simp [matSum, zeroMat]
    rcases evalLoop_valid evalLabels n (pairs.take k) zeroMat 0 htake hz with
      ⟨Mk, h1, h2⟩
    exact ⟨Mk, by simpa using h1, by simpa using h2⟩
  · intro M nb pair rest M2 k hok hne
    rw [evalLoop, hok]
    simp [if_neg hne]

/-- Witness for C2: two concrete pairs over a 2×2 matrix. -/
theorem c2_matrix_conservation_witness :
    (∀ k : ℕ, ∃ Mk,
      evalLoop [0, 1] 2 ([[(0, 0), (1, 0)], [(1, 1)]].take k) zeroMat 0 =
          .ok (Mk, (([[(0, 0), (1, 0)], [(1, 1)]].take k).map List.length).sum) ∧
        matSum 2 Mk = (([[(0, 0), (1, 0)], [(1, 1)]].take k).map List.length).sum) ∧
    (∀ (M : ℕ → ℕ → ℕ) (nb : ℕ) (pair : List (ℕ × ℕ))
        (rest : List (List (ℕ × ℕ))) (M2 : ℕ → ℕ → ℕ) (k : ℕ),
      evaluatePairPx [0, 1] pair M = .ok (M2, k) →
      matSum 2 M2 ≠ nb + k →
      evalLoop [0, 1] 2 (pair :: rest) M nb =
        .error "Number of analyzed pixels and entries in confusion matrix disagree") :=
  c2_matrix_conservation [0, 1] 2 [[(0, 0), (1, 0)], [(1, 1)]] (by decide)

/-! ### Unknown ground-truth labels (C4) -/

lemma evalLoop_error_of_accPixels (evalLabels : List ℕ) (n : ℕ)
    (pixels : List (ℕ × ℕ)) (M : ℕ → ℕ → ℕ) (msg : String)
    (h : (accPixels evalLabels pixels M).2 = some msg) :
    ∀ (rest : List (List (ℕ × ℕ))) (nb : ℕ),
      evalLoop evalLabels n (pixels :: rest) M nb = .error msg := by
  intro rest nb
  have hpx : evaluatePairPx evalLabels pixels M = .error msg := by
    unfold evaluatePairPx
    rcases hacc : accPixels evalLabels pixels M with ⟨M2, err⟩
    rw [hacc] at h
    simp at h
    subst h
    simp
  rw [evalLoop, hpx]

/-- Claim C4 (amended): a pair containing a ground-truth pixel outside
`EvalLabelSet` makes accumulation fail with the fatal unknown-label error and
the run abort (so the pair is never counted and no report is produced); at
the moment of failure the matrix holds exactly the increments of the pixels
preceding the first out-of-taxonomy one, so it is unchanged from its state
before the pair only when the offending pixel comes first. -/
theorem c4_unknown_label_aborts (evalLabels : List ℕ)
    (pixels : List (ℕ × ℕ)) (M : ℕ → ℕ → ℕ)
    (h : ∃ q ∈ pixels, q.1 ∉ evalLabels) :
    (∃ msg, (accPixels evalLabels pixels M).2 = some msg) ∧
    (accPixels evalLabels pixels M).1 =
      (pixels.takeWhile (fun q => decide (q.1 ∈ evalLabels))).foldl
        (fun A q => bump A q.1 q.2) M ∧
    (∀ (n : ℕ) (rest : List (List (ℕ × ℕ))) (nb : ℕ), ∃ msg,
      evalLoop evalLabels n (pixels :: rest) M nb = .error msg) := by
  have main : ∀ (px : List (ℕ × ℕ)) (M0 : ℕ → ℕ → ℕ),
      (∃ q ∈ px, q.1 ∉ evalLabels) →
      (∃ msg, (accPixels evalLabels px M0).2 = some msg) ∧
      (accPixels evalLabels px M0).1 =
        (px.takeWhile (fun q => decide (q.1 ∈ evalLabels))).foldl
          (fun A q => bump A q.1 q.2) M0 := by
    intro px
    induction px with
    | nil => intro M0 hx; simp at hx
    | cons q rest ih =>
      intro M0 hx
      by_cases hq : q.1 ∈ evalLabels
      · have hx2 : ∃ r ∈ rest, r.1 ∉ evalLabels := by
          rcases hx with ⟨r, hr, hrn⟩
          rcases List.mem_cons.mp hr with h1 | h1
          · exact absurd hq (h1 ▸ hrn)
          · exact ⟨r, h1, hrn⟩
        have step : accPixels evalLabels (q :: rest) M0 =
            accPixels evalLabels rest (bump M0 q.1 q.2) := by
          simp [accPixels, hq]
        rcases ih (bump M0 q.1 q.2) hx2 with ⟨h1, h2⟩
        refine ⟨by rw [step]; exact h1, ?_⟩
        rw [step, h2]
        simp [List.takeWhile, hq]
      · have step : accPixels evalLabels (q :: rest) M0 =
            (M0, some ("Unknown label with id " ++ toString q.1)) := by
          simp [accPixels, hq]
        refine ⟨⟨_, by rw [step]⟩, ?_⟩
        rw [step]
        simp [List.takeWhile, hq]
  rcases main pixels M h with ⟨⟨msg, hmsg⟩, h2⟩
  exact ⟨⟨msg, hmsg⟩, h2, fun n rest nb =>
    ⟨msg, evalLoop_error_of_accPixels evalLabels n pixels M msg hmsg rest nb⟩⟩

/-- Counterexample for C4 as stated: for the pair `[(7,7), (9,0)]` with
`EvalLabelSet = {7}`, the loop fails on the second pixel, but at that moment
the matrix already holds the increment of the first pixel, so it is not
unchanged from its state before the pair. -/
theorem c4_counterexample :
    (accPixels [7] [(7, 7), (9, 0)] zeroMat).1 7 7 = 1 ∧
    zeroMat 7 7 = 0 ∧
    (∃ msg, (accPixels [7] [(7, 7), (9, 0)] zeroMat).2 = some msg) := by
  refine ⟨by decide, rfl, ⟨"Unknown label with id 9", rfl⟩⟩

/-- Witness for the amended C4 theorem at a concrete pair. -/
theorem c4_unknown_label_aborts_witness :
    (∃ msg, (accPixels [7] [(7, 8), (9, 0)] zeroMat).2 = some msg) ∧
    (accPixels [7] [(7, 8), (9, 0)] zeroMat).1 =
      (([(7, 8), (9, 0)] : List (ℕ × ℕ)).takeWhile
          (fun q => decide (q.1 ∈ [7]))).foldl
        (fun A q => bump A q.1 q.2) zeroMat ∧
    (∀ (n : ℕ) (rest : List (List (ℕ × ℕ))) (nb : ℕ), ∃ msg,
      evalLoop [7] n ([(7, 8), (9, 0)] :: rest) zeroMat nb = .error msg) :=
  c4_unknown_label_aborts [7] [(7, 8), (9, 0)] zeroMat
    ⟨(9, 0), by decide, by decide⟩

/-! ### Score averages (getScoreAverage / getFreqScoreAverage) -/

/-- One step of the `getScoreAverage` loop: skip NaN scores (`none`),
otherwise count the score and add it to the sum. -/
def scoreStep (acc : ℕ × ℚ) (t : Option ℚ × ℚ) : ℕ × ℚ :=
  match t.1 with
  | some x => (acc.1 + 1, acc.2 + x)
  | none => acc

/-- `getScoreAverage`: the plain average over the valid (non-NaN) entries of
a score collection; `none` models the NaN returned when no entry is valid.
Each entry is a `(score, weight)` pair as produced by the IoU functions,
with a NaN score embedded as `none`. -/
def getScoreAverage (l : List (Option ℚ × ℚ)) : Option ℚ :=
  let p := l.foldl scoreStep (0, 0)
  if p.1 = 0 then none else some (p.2 / (p.1 : ℚ))

/-- One step of the `getFreqScoreAverage` loop: skip NaN scores, otherwise
add the weight to `validScores` and `score * weight` to the sum. -/
def freqStep (acc : ℚ × ℚ) (t : Option ℚ × ℚ) : ℚ × ℚ :=
  match t.1 with
  | some x => (acc.1 + t.2, acc.2 + x * t.2)
  | none => acc

/-- `getFreqScoreAverage`: the frequency-weighted average over the valid
entries; `none` models the NaN returned when the accumulated weight is 0. -/
def getFreqScoreAverage (l : List (Option ℚ × ℚ)) : Option ℚ :=
  let p := l.foldl freqStep (0, 0)
  if p.1 = 0 then none else some (p.2 / p.1)

/-- The weights of the non-NaN entries, summed (the spec's `sum(weight)`). -/
def validWeightSum (l : List (Option ℚ × ℚ)) : ℚ :=
  ((l.filter (fun t => t.1.isSome)).map (fun t => t.2)).sum

/-- The spec's `sum(score*weight)` over non-NaN entries. -/
def validWeightedScoreSum (l : List (Option ℚ × ℚ)) : ℚ :=
  (l.filterMap (fun t => t.1.map (fun x => x * t.2))).sum

lemma scoreStep_fold :
    ∀ (l : List (Option ℚ × ℚ)) (c : ℕ) (s : ℚ),
      l.foldl scoreStep (c, s) =
        (c + (l.filterMap (fun t => t.1)).length,
         s + (l.filterMap (fun t => t.1)).sum) := by
  intro l
  induction l with
  | nil => intro c s; simp
  | cons t rest ih =>
    intro c s
    rcases ht : t.1 with _ | x
    · have : scoreStep (c, s) t = (c, s) := by simp [scoreStep, ht]
      simp only [List.foldl_cons, this, ih, List.filterMap_cons, ht]
    · have : scoreStep (c, s) t = (c + 1, s + x) := by simp [scoreStep, ht]
      simp only [List.foldl_cons, this, ih, List.filterMap_cons, ht,
        List.length_cons, List.sum_cons, Prod.mk.injEq]
      constructor
      · omega
      · ring

lemma freqStep_fold :
    ∀ (l : List (Option ℚ × ℚ)) (w s : ℚ),
      l.foldl freqStep (w, s) =
        (w + validWeightSum l, s + validWeightedScoreSum l) := by
  intro l
  induction l with
  | nil => intro w s; simp [validWeightSum, validWeightedScoreSum]
  | cons t rest ih =>
    intro w s
    rcases ht : t.1 with _ | x
    · have hstep : freqStep (w, s) t = (w, s) := by simp [freqStep, ht]
      have h1 : validWeightSum (t :: rest) = validWeightSum rest := by
        simp [validWeightSum, List.filter_cons, ht]
      have h2 : validWeightedScoreSum (t :: rest) = validWeightedScoreSum rest := by
        simp [validWeightedScoreSum, List.filterMap_cons, ht]
      simp only [List.foldl_cons, hstep, ih, h1, h2]
    · have hstep : freqStep (w, s) t = (w + t.2, s + x * t.2) := by
        simp [freqStep, ht]
      have h1 : validWeightSum (t :: rest) = t.2 + validWeightSum rest := by
        simp [validWeightSum, List.filter_cons, ht]
      have h2 : validWeightedScoreSum (t :: rest) =
          x * t.2 + validWeightedScoreSum rest := by
        simp [validWeightedScoreSum, List.filterMap_cons, ht]
      simp only [List.foldl_cons, hstep, ih, h1, h2, Prod.mk.injEq]
      constructor <;> ring

lemma validWeightedScoreSum_const (v : ℚ) :
    ∀ l : List (Option ℚ × ℚ),
      (∀ t ∈ l, ∀ x, t.1 = some x → x = v) →
      validWeightedScoreSum l = v * validWeightSum l := by
  intro l
  induction l with
  | nil => intro _; simp [validWeightSum, validWeightedScoreSum]
  | cons t rest ih =>
    intro h
    have hrest : ∀ r ∈ rest, ∀ x, r.1 = some x → x = v :=
      fun r hr => h r (List.mem_cons_of_mem t hr)
    rcases ht : t.1 with _ | x
    · have h1 : validWeightSum (t :: rest) = validWeightSum rest := by
        simp [validWeightSum, List.filter_cons, ht]
      have h2 : validWeightedScoreSum (t :: rest) = validWeightedScoreSum rest := by
        simp [validWeightedScoreSum, List.filterMap_cons, ht]
      rw [h1, h2, ih hrest]
    · have hx : x = v := h t (List.mem_cons_self t rest) x ht
      have h1 : validWeightSum (t :: rest) = t.2 + validWeightSum rest := by
        simp [validWeightSum, List.filter_cons, ht]
      have h2 : validWeightedScoreSum (t :: rest) =
          x * t.2 + validWeightedScoreSum rest := by
        simp [validWeightedScoreSum, List.filterMap_cons, ht]
      rw [h1, h2, ih hrest, hx]
      ring

lemma valid_sum_const (v : ℚ) :
    ∀ l : List (Option ℚ × ℚ),
      (∀ t ∈ l, ∀ x, t.1 = some x → x = v) →
      (l.filterMap (fun t => t.1)).sum =
        ((l.filterMap (fun t => t.1)).length : ℚ) * v := by
  intro l
  induction l with
  | nil => intro _; simp
  | cons t rest ih =>
    intro h
    have hrest : ∀ r ∈ rest, ∀ x, r.1 = some x → x = v :=
      fun r hr => h r (List.mem_cons_of_mem t hr)
    rcases ht : t.1 with _ | x
    · simp only [List.filterMap_cons, ht, ih hrest]
    · have hx : x = v := h t (List.mem_cons_self t rest) x ht
      simp only [List.filterMap_cons, ht, List.sum_cons, List.length_cons,
        ih hrest, hx]
      push_cast
      ring

/-- Claim C6 (amended): the plain average is the mean of the non-NaN scores
and the frequency-weighted average is `sum(score*weight)/sum(weight)` over
non-NaN entries, both NaN (`none`) when their denominator accumulator is
zero; consequently, if every non-NaN score equals `v`, the plain average is
`v` provided at least one non-NaN score exists, and the frequency-weighted
average is `v` provided additionally the non-NaN weights do not sum to
zero. -/
theorem c6_score_averages (l : List (Option ℚ × ℚ)) (v : ℚ) :
    getScoreAverage l =
      (if (l.filterMap (fun t => t.1)).length = 0 then none
       else some ((l.filterMap (fun t => t.1)).sum /
         ((l.filterMap (fun t => t.1)).length : ℚ))) ∧
    getFreqScoreAverage l =
      (if validWeightSum l = 0 then none
       else some (validWeightedScoreSum l / validWeightSum l)) ∧
    ((∀ t ∈ l, ∀ x, t.1 = some x → x = v) →
      ((l.filterMap (fun t => t.1)) ≠ [] → getScoreAverage l = some v) ∧
      (validWeightSum l ≠ 0 → getFreqScoreAverage l = some v)) := by
  have ha : getScoreAverage l =
      (if (l.filterMap (fun t => t.1)).length = 0 then none
       else some ((l.filterMap (fun t => t.1)).sum /
         ((l.filterMap (fun t => t.1)).length : ℚ))) := by
    unfold getScoreAverage
    rw [show ((0, 0) : ℕ × ℚ) = ((0 : ℕ), (0 : ℚ)) from rfl, scoreStep_fold]
    simp only [Nat.zero_add, zero_add]
  have hb : getFreqScoreAverage l =
      (if validWeightSum l = 0 then none
       else some (validWeightedScoreSum l / validWeightSum l)) := by
    unfold getFreqScoreAverage
    rw [show ((0, 0) : ℚ × ℚ) = ((0 : ℚ), (0 : ℚ)) from rfl, freqStep_fold]
    simp only [zero_add]
  refine ⟨ha, hb, fun hv => ⟨fun hne => ?_, fun hw => ?_⟩⟩
  · have hlen : (l.filterMap (fun t => t.1)).length ≠ 0 := by
      simpa [List.length_eq_zero] using hne
    rw [ha, if_neg hlen, valid_sum_const v l hv]
    have : ((l.filterMap (fun t => t.1)).length : ℚ) ≠ 0 := by
      exact_mod_cast hlen
    field_simp
  · rw [hb, if_neg hw, validWeightedScoreSum_const v l hv]
    field_simp

/-- Counterexample for C6 as stated: a collection whose single valid score
is `1` but whose weight is `0` has plain average `1` while the
frequency-weighted average is NaN, not `1`. -/
theorem c6_counterexample :
    getScoreAverage [(some 1, 0)] = some 1 ∧
    getFreqScoreAverage [(some 1, 0)] = none := by
  constructor
  · unfold getScoreAverage
    rw [show ((0, 0) : ℕ × ℚ) = ((0 : ℕ), (0 : ℚ)) from rfl, scoreStep_fold]
    norm_num [List.filterMap_cons, List.filterMap_nil]
  · unfold getFreqScoreAverage
    rw [show ((0, 0) : ℚ × ℚ) = ((0 : ℚ), (0 : ℚ)) from rfl, freqStep_fold]
    norm_num [validWeightSum, validWeightedScoreSum]

/-- Witness for the amended C6 theorem on a concrete collection. -/
theorem c6_score_averages_witness :
    getScoreAverage [(some 2, (1 : ℚ))] = some 2 ∧
    getFreqScoreAverage [(some 2, (1 : ℚ))] = some 2 := by
  have h := (c6_score_averages [(some 2, (1 : ℚ))] 2).2.2 (by
    intro t ht x hx
    simp only [List.mem_singleton] at ht
    subst ht
    simpa using hx.symm)
  exact ⟨h.1 (by simp), h.2 (by norm_num [validWeightSum])⟩

/-! ### Per-image pixel-accuracy statistics (C5) -/

/-- The pixel-accuracy branch of `evaluatePair`: the `(nbNotIgnoredPixels,
nbCorrectPixels)` pair stored into `perImageStats` under the prediction
file name.  `np.in1d(groundTruthNp, notIgnoredLabels, invert=True)` is a
mask that is true where the ground truth is NOT one of the non-ignored
labels, and the value stored under `nbCorrectPixels` counts the masked
pixels where prediction and ground truth differ. -/
def perImageStatsEntry (tax : List CsLabel) (evalLabels : List ℕ)
    (gt pred : List ℕ) : ℕ × ℕ :=
  let notIgnoredLabels := evalLabels.filter (fun l => rowNotIgnored tax l)
  let notIgnoredPixels := gt.map (fun g => ! notIgnoredLabels.contains g)
  let erroneousPixels := (gt.zip pred).map
    (fun q => (! notIgnoredLabels.contains q.1) && ! (q.2 == q.1))
  (notIgnoredPixels.count true, erroneousPixels.count true)

/-- A one-label taxonomy for the C5 failing input. -/
def c5Tax : List CsLabel := [⟨7, "road", "flat", false, false⟩]

/-- Claim C5 is contradicted by the code: for a single-pixel image whose
ground truth is the non-ignored label 7 and whose prediction is correct, the
claim (and the variable names of the source) demand
`nbNotIgnoredPixels = 1` and `nbCorrectPixels = 1`, but the stored entry is
`(0, 0)`: the membership mask is inverted and an error count is stored
under `nbCorrectPixels`. -/
theorem c5_per_image_stats_bug :
    perImageStatsEntry c5Tax (evalLabelsOf c5Tax) [7] [7] = (0, 0) ∧
    (([7] : List ℕ).filter
      (fun g => rowNotIgnored c5Tax g)).length = 1 ∧
    ((([7] : List ℕ).zip [7]).filter
      (fun q => rowNotIgnored c5Tax q.1 && (q.2 == q.1))).length = 1 := by
  refine ⟨?_, by decide, by decide⟩
  decide

/-! ### Instance statistics construction (C9) -/

/-- A category entry of `InstanceStats.categories`. -/
structure CatEntry where
  tp : ℚ
  tpWeighted : ℚ
  fn : ℚ
  fnWeighted : ℚ
  labelIds : List ℕ
deriving DecidableEq, Repr

/-- The inner loop of `generateInstanceStats` over one category's member
labels: labels with negative id are skipped with `continue`; the first
remaining label without instances sets `allInstances = False` and breaks;
otherwise the id is appended to `labelIds`. -/
def catLabelIds : List CsLabel → List ℕ × Bool
  | [] => ([], true)
  | lab :: rest =>
      if lab.id < 0 then catLabelIds rest
      else if ! lab.hasInstances then ([], false)
      else
        let r := catLabelIds rest
        (lab.id.toNat :: r.1, r.2)

/-- The `categories` mapping built by `generateInstanceStats` from
`category2labels`: a category is kept only when its scan did not break, and
its entry is zero-initialized with the collected `labelIds`. -/
def generateInstanceStatsCategories :
    List (String × List CsLabel) → List (String × CatEntry)
  | [] => []
  | (c, mems) :: rest =>
      let r := catLabelIds mems
      if r.2 then (c, ⟨0, 0, 0, 0, r.1⟩) :: generateInstanceStatsCategories rest
      else generateInstanceStatsCategories rest

lemma catLabelIds_flag :
    ∀ mems : List CsLabel,
      (catLabelIds mems).2 = true ↔
        ∀ lab ∈ mems, 0 ≤ lab.id → lab.hasInstances = true := by
  intro mems
  induction mems with
  | nil => simp [catLabelIds]
  | cons lab rest ih =>
    by_cases h1 : lab.id < 0
    · have hstep : catLabelIds (lab :: rest) = catLabelIds rest := by
        simp [catLabelIds, h1]
      rw [hstep, ih]
      constructor
      · intro h l hl hnn
        rcases List.mem_cons.mp hl with h2 | h2
        · exact absurd (h2 ▸ hnn) (by omega)
        · exact h l h2 hnn
      · intro h l hl
        exact h l (List.mem_cons_of_mem lab hl)
    · by_cases h2 : lab.hasInstances = true
      · have hstep : (catLabelIds (lab :: rest)).2 = (catLabelIds rest).2 := by
          simp [catLabelIds, h1, h2]
        rw [hstep, ih]
        constructor
        · intro h l hl hnn
          rcases List.mem_cons.mp hl with h3 | h3
          · exact h3 ▸ h2
          · exact h l h3 hnn
        · intro h l hl
          exact h l (List.mem_cons_of_mem lab hl)
      · have h2f : lab.hasInstances = false := by simpa using h2
        have hstep : catLabelIds (lab :: rest) = ([], false) := by
          simp [catLabelIds, h1, h2f]
        rw [hstep]
        simp only [Bool.false_eq_true, false_iff]
        intro h
        have hinst := h lab (List.mem_cons_self lab rest) (by omega)
        simp [h2f] at hinst

lemma catLabelIds_ids :
    ∀ mems : List CsLabel,
      (catLabelIds mems).2 = true →
      (catLabelIds mems).1 =
        (mems.filter (fun lab => 0 ≤ lab.id)).map (fun lab => lab.id.toNat) := by
  intro mems
  induction mems with
  | nil => intro _; rfl
  | cons lab rest ih =>
    intro hflag
    by_cases h1 : lab.id < 0
    · have hstep : catLabelIds (lab :: rest) = catLabelIds rest := by
        simp [catLabelIds, h1]
      rw [hstep] at hflag ⊢
      rw [List.filter_cons, if_neg (by simp; omega), ih hflag]
    · by_cases h2 : lab.hasInstances = true
      · have hstep : catLabelIds (lab :: rest) =
            (lab.id.toNat :: (catLabelIds rest).1, (catLabelIds rest).2) := by
          simp [catLabelIds, h1, h2]
        rw [hstep] at hflag ⊢
        rw [List.filter_cons, if_pos (by simp; omega), List.map_cons,
          ih hflag]
      · have h2f : lab.hasInstances = false := by simpa using h2
        have hstep : catLabelIds (lab :: rest) = ([], false) := by
          simp [catLabelIds, h1, h2f]
        rw [hstep] at hflag
        simp at hflag

/-- Claim C9 (amended): `InstanceStats.categories` contains a
zero-initialized entry exactly for those categories whose every member
label **with non-negative id** has `hasInstances` true — members with
negative id are skipped by the scan and never exclude their category — and
its `labelIds` are the non-negative member ids in table order. -/
theorem c9_instance_stats_categories (cats : List (String × List CsLabel)) :
    generateInstanceStatsCategories cats =
      (cats.filter (fun p =>
        decide (∀ lab ∈ p.2, 0 ≤ lab.id → lab.hasInstances = true))).map
        (fun p => (p.1, ⟨0, 0, 0, 0,
          (p.2.filter (fun lab => 0 ≤ lab.id)).map (fun lab => lab.id.toNat)⟩)) := by
  induction cats with
  | nil => rfl
  | cons p rest ih =>
    rcases p with ⟨c, mems⟩
    by_cases hflag : (catLabelIds mems).2 = true
    · have hcond :
          decide (∀ lab ∈ mems, 0 ≤ lab.id → lab.hasInstances = true) = true := by
        rw [decide_eq_true_eq]
        exact (catLabelIds_flag mems).mp hflag
      have hstep : generateInstanceStatsCategories ((c, mems) :: rest) =
          (c, ⟨0, 0, 0, 0, (catLabelIds mems).1⟩) ::
            generateInstanceStatsCategories rest := by
        simp [generateInstanceStatsCategories, hflag]
      rw [hstep, List.filter_cons, if_pos hcond, List.map_cons, ih,
        catLabelIds_ids mems hflag]
    · have hflagf : (catLabelIds mems).2 = false := by
        simpa using hflag
      have hcond :
          decide (∀ lab ∈ mems, 0 ≤ lab.id → lab.hasInstances = true) = false := by
        rw [decide_eq_false_iff_not]
        intro hall
        exact hflag ((catLabelIds_flag mems).mpr hall)
      have hstep : generateInstanceStatsCategories ((c, mems) :: rest) =
          generateInstanceStatsCategories rest := by
        simp [generateInstanceStatsCategories, hflagf]
      rw [hstep, List.filter_cons, if_neg (by simp [hcond]), ih]

/-- The `license plate` label of the Cityscapes table: negative id, no
instances, member of the `vehicle` category. -/
def c9Plate : CsLabel := ⟨-1, "license plate", "vehicle", false, true⟩

/-- The `car` label: non-negative id with instances. -/
def c9Car : CsLabel := ⟨26, "car", "vehicle", true, false⟩

/-- Counterexample for C9 as stated: the `vehicle` category contains a
member (`license plate`) violating `hasInstances ∧ id ≥ 0`, yet
`generateInstanceStats` still creates an entry for it, because members with
negative id are skipped before the `hasInstances` test. -/
theorem c9_counterexample :
    generateInstanceStatsCategories [("vehicle", [c9Plate, c9Car])] =
      [("vehicle", ⟨0, 0, 0, 0, [26]⟩)] ∧
    ¬ (∀ lab ∈ [c9Plate, c9Car], lab.hasInstances = true ∧ 0 ≤ lab.id) := by
  constructor
  · rfl
  · intro h
    have := (h c9Plate (by simp)).1
    simp [c9Plate] at this

/-! ### Instance statistics accumulation (C3, C10) -/

/-- A class entry of `InstanceStats.classes`. -/
structure ClassEntry where
  tp : ℚ
  tpWeighted : ℚ
  fn : ℚ
  fnWeighted : ℚ
deriving DecidableEq, Repr

/-- The `classes` mapping built by `generateInstanceStats`: a
zero-initialized entry for every label with `hasInstances` and not
`ignoreInEval`. -/
def generateInstanceStatsClasses (tax : List CsLabel) :
    List (String × ClassEntry) :=
  (tax.filter (fun lab => lab.hasInstances && ! lab.ignoreInEval)).map
    (fun lab => (lab.name, ⟨0, 0, 0, 0⟩))

/-- Overwrite the entry stored under a name (Python dict item assignment on
an existing key). -/
def updateEntry (classes : List (String × ClassEntry)) (nm : String)
    (e : ClassEntry) : List (String × ClassEntry) :=
  classes.map (fun p => if p.1 = nm then (p.1, e) else p)

/-- `np.unique(instanceNp[instanceNp > 1000])`: the distinct instance ids
strictly greater than 1000, in ascending order. -/
def instListOf (inst : List ℕ) : List ℕ :=
  (List.insertionSort (fun a b => a ≤ b) (inst.filter (fun v => 1000 < v))).dedup

/-- `instSize`: the pixel count of the instance mask `instanceNp == instId`. -/
def instPixelCount (inst : List ℕ) (instId : ℕ) : ℕ :=
  inst.count instId

/-- `tp`: the pixels inside the instance mask predicted as `labelId`
(`np.count_nonzero(predictionNp[mask] == labelId)`). -/
def instTp (pred inst : List ℕ) (instId labelId : ℕ) : ℕ :=
  ((pred.zip inst).filter (fun q => q.2 == instId && q.1 == labelId)).length

/-- The body of the per-instance loop of `evaluatePair` restricted to the
`classes` dictionary (the category branch, lines 740-752 of the source,
only mutates the separate `categories` dictionary, is guarded by a
membership test, and cannot raise, so it does not affect the `classes`
result or the error behaviour).  `Except.error` models the `KeyError` of a
missing dictionary key. -/
def updateForInstance (tax : List CsLabel) (avgClassSize : List (String × ℚ))
    (pred inst : List ℕ) (classes : List (String × ClassEntry))
    (instId : ℕ) : Except String (List (String × ClassEntry)) :=
  let labelId := instId / 1000
  match id2label tax (labelId : Int) with
  | none => .error "KeyError: id2label"
  | some lab =>
    if lab.ignoreInEval then .ok classes
    else
      let instSize := instPixelCount inst instId
      let tp := instTp pred inst instId labelId
      let fn : ℚ := (instSize : ℚ) - (tp : ℚ)
      match avgClassSize.lookup lab.name with
      | none => .error "KeyError: avgClassSize"
      | some a =>
        let weight : ℚ := a / (instSize : ℚ)
        match classes.lookup lab.name with
        | none => .error "KeyError: classes"
        | some e =>
          .ok (updateEntry classes lab.name
            ⟨e.tp + (tp : ℚ), e.tpWeighted + (tp : ℚ) * weight,
             e.fn + fn, e.fnWeighted + fn * weight⟩)

/-- The per-instance loop of `evaluatePair` over the distinct instance ids. -/
def instLoop (tax : List CsLabel) (avgClassSize : List (String × ℚ))
    (pred inst : List ℕ) :
    List ℕ → List (String × ClassEntry) →
      Except String (List (String × ClassEntry))
  | [], classes => .ok classes
  | i :: rest, classes =>
      match updateForInstance tax avgClassSize pred inst classes i with
      | .error e => .error e
      | .ok c2 => instLoop tax avgClassSize pred inst rest c2

/-- The instance-statistics accumulation of one pair, starting from the
freshly generated `classes` mapping. -/
def accumulateInstStats (tax : List CsLabel)
    (avgClassSize : List (String × ℚ)) (pred inst : List ℕ) :
    Except String (List (String × ClassEntry)) :=
  instLoop tax avgClassSize pred inst (instListOf inst)
    (generateInstanceStatsClasses tax)

lemma instListOf_mem (inst : List ℕ) (i : ℕ) :
    i ∈ instListOf inst ↔ i ∈ inst ∧ 1000 < i := by
  unfold instListOf
  rw [List.mem_dedup,
    (List.perm_insertionSort (fun a b => a ≤ b) (inst.filter (fun v => 1000 < v))).mem_iff,
    List.mem_filter]
  simp

/-- Claim C3 (amended): for a distinct instance id greater than 1000 whose
decoded label `instId / 1000` is not `ignoreInEval`, **has an average-size
entry and a class entry** (which `generateInstanceStats` creates exactly
for labels with `hasInstances` and not `ignoreInEval`), the per-instance
update adds `tp`, `fn = instSize - tp`, `tp*weight` and `fn*weight` to the
label's class entry with `weight = avgClassSize[name] / instSize`; and the
enumerated instance ids are exactly the distinct map values strictly
greater than 1000 (ids at most 1000 are skipped). -/
theorem c3_instance_update (tax : List CsLabel)
    (avgClassSize : List (String × ℚ)) (pred inst : List ℕ)
    (classes : List (String × ClassEntry)) (instId : ℕ) (lab : CsLabel)
    (a : ℚ) (e : ClassEntry)
    (h1 : id2label tax ((instId / 1000 : ℕ) : Int) = some lab)
    (h2 : lab.ignoreInEval = false)
    (h3 : avgClassSize.lookup lab.name = some a)
    (h4 : classes.lookup lab.name = some e) :
    updateForInstance tax avgClassSize pred inst classes instId =
      .ok (updateEntry classes lab.name
        ⟨e.tp + (instTp pred inst instId (instId / 1000) : ℚ),
         e.tpWeighted + (instTp pred inst instId (instId / 1000) : ℚ) *
           (a / (instPixelCount inst instId : ℚ)),
         e.fn + ((instPixelCount inst instId : ℚ) -
           (instTp pred inst instId (instId / 1000) : ℚ)),
         e.fnWeighted + ((instPixelCount inst instId : ℚ) -
           (instTp pred inst instId (instId / 1000) : ℚ)) *
           (a / (instPixelCount inst instId : ℚ))⟩) ∧
    (∀ i, i ∈ instListOf inst ↔ i ∈ inst ∧ 1000 < i) := by
  constructor
  · simp only [updateForInstance, h1, h2, Bool.false_eq_true, if_false, h3, h4]
  · exact fun i => instListOf_mem inst i

/-- Witness for the amended C3 theorem: one `person` instance of id 24001,
three pixels, two predicted correctly. -/
theorem c3_instance_update_witness :
    updateForInstance [⟨24, "person", "human", true, false⟩]
        [("person", 3462)] [24, 24, 7] [24001, 24001, 24001]
        (generateInstanceStatsClasses [⟨24, "person", "human", true, false⟩])
        24001 =
      .ok (updateEntry
        (generateInstanceStatsClasses [⟨24, "person", "human", true, false⟩])
        "person"
        ⟨0 + (2 : ℚ), 0 + (2 : ℚ) * ((3462 : ℚ) / (3 : ℚ)),
         0 + ((3 : ℚ) - (2 : ℚ)),
         0 + ((3 : ℚ) - (2 : ℚ)) * ((3462 : ℚ) / (3 : ℚ))⟩) ∧
    (∀ i, i ∈ instListOf [24001, 24001, 24001] ↔
      i ∈ [24001, 24001, 24001] ∧ 1000 < i) := by
  have h := c3_instance_update [⟨24, "person", "human", true, false⟩]
    [("person", 3462)] [24, 24, 7] [24001, 24001, 24001]
    (generateInstanceStatsClasses [⟨24, "person", "human", true, false⟩])
    24001 ⟨24, "person", "human", true, false⟩ 3462 ⟨0, 0, 0, 0⟩
    rfl rfl rfl rfl
  refine ⟨?_, h.2⟩
  rw [h.1]
  norm_num [instTp, instPixelCount]

/-- A taxonomy slice for the C3 counterexample: `road` exists, is not
ignored, but has no instances (so neither `avgClassSize` nor the generated
`classes` mapping knows it). -/
def c3Tax : List CsLabel := [⟨7, "road", "flat", false, false⟩]

/-- Counterexample for C3 as stated: instance id 7005 is greater than 1000
and decodes to label 7 (`road`), which is not `ignoreInEval`, yet the
update does not add anything to a class entry — it fails with a dictionary
lookup error, because `road` has `hasInstances = false`. -/
theorem c3_counterexample :
    (1000 < 7005 ∧ id2label c3Tax ((7005 / 1000 : ℕ) : Int) =
        some ⟨7, "road", "flat", false, false⟩ ∧
      (⟨7, "road", "flat", false, false⟩ : CsLabel).ignoreInEval = false) ∧
    updateForInstance c3Tax [] [7] [7005]
        (generateInstanceStatsClasses c3Tax) 7005 =
      .error "KeyError: avgClassSize" := by
  exact ⟨⟨by norm_num, rfl, rfl⟩, rfl⟩

lemma updateEntry_cons (k : String) (v : ClassEntry)
    (rest : List (String × ClassEntry)) (nm2 : String) (e : ClassEntry) :
    updateEntry ((k, v) :: rest) nm2 e =
      (if k = nm2 then (k, e) else (k, v)) :: updateEntry rest nm2 e := rfl

lemma updateEntry_lookup_none (nm nm2 : String) (e : ClassEntry) :
    ∀ classes : List (String × ClassEntry),
      List.lookup nm classes = none →
      List.lookup nm (updateEntry classes nm2 e) = none := by
  intro classes
  induction classes with
  | nil => intro _; rfl
  | cons p rest ih =>
    intro h
    rcases p with ⟨k, v⟩
    cases hk : (nm == k) with
    | true => simp [List.lookup, hk] at h
    | false =>
      have hrest : List.lookup nm rest = none := by
        simpa [List.lookup, hk] using h
      rw [updateEntry_cons]
      by_cases hk2 : k = nm2
      · rw [if_pos hk2]
        simp only [List.lookup, hk]
        exact ih hrest
      · rw [if_neg hk2]
        simp only [List.lookup, hk]
        exact ih hrest

lemma classes_lookup_none (nm : String) :
    ∀ tax : List CsLabel,
      (∀ l ∈ tax, l.name = nm →
        (l.hasInstances = false ∨ l.ignoreInEval = true)) →
      List.lookup nm (generateInstanceStatsClasses tax) = none := by
  intro tax
  induction tax with
  | nil => intro _; rfl
  | cons lab rest ih =>
    intro h
    have hrest : ∀ l ∈ rest, l.name = nm →
        (l.hasInstances = false ∨ l.ignoreInEval = true) :=
      fun l hl => h l (List.mem_cons_of_mem lab hl)
    by_cases hcond : (lab.hasInstances && ! lab.ignoreInEval) = true
    · have hcons : generateInstanceStatsClasses (lab :: rest) =
          (lab.name, ⟨0, 0, 0, 0⟩) :: generateInstanceStatsClasses rest := by
        simp only [generateInstanceStatsClasses, List.filter_cons, hcond,
          if_true, List.map_cons]
      have hne : (nm == lab.name) = false := by
        rw [beq_eq_false_iff_ne]
        intro heq
        rcases h lab (List.mem_cons_self lab rest) heq.symm with hfi | hig
        · rw [hfi] at hcond; simp at hcond
        · rw [hig] at hcond; simp at hcond
      rw [hcons]
      simp only [List.lookup, hne]
      exact ih hrest
    · have hcondf : (lab.hasInstances && ! lab.ignoreInEval) = false := by
        simpa using hcond
      have hcons : generateInstanceStatsClasses (lab :: rest) =
          generateInstanceStatsClasses rest := by
        simp only [generateInstanceStatsClasses, List.filter_cons, hcondf,
          Bool.false_eq_true, if_false]
      rw [hcons]
      exact ih hrest

lemma updateForInstance_error_of_no_class (tax : List CsLabel)
    (avg : List (String × ℚ)) (pred inst : List ℕ)
    (classes : List (String × ClassEntry)) (instId : ℕ) (lab : CsLabel)
    (h1 : id2label tax ((instId / 1000 : ℕ) : Int) = some lab)
    (h2 : lab.ignoreInEval = false)
    (h4 : List.lookup lab.name classes = none) :
    ∃ msg, updateForInstance tax avg pred inst classes instId = .error msg := by
  cases h3 : List.lookup lab.name avg with
  | none =>
    exact ⟨"KeyError: avgClassSize", by
      simp only [updateForInstance, h1, h2, Bool.false_eq_true, if_false, h3]⟩
  | some a =>
    exact ⟨"KeyError: classes", by
      simp only [updateForInstance, h1, h2, Bool.false_eq_true, if_false,
        h3, h4]⟩

lemma updateForInstance_preserves_none (tax : List CsLabel)
    (avg : List (String × ℚ)) (pred inst : List ℕ)
    (classes c2 : List (String × ClassEntry)) (i : ℕ) (nm : String)
    (h : updateForInstance tax avg pred inst classes i = .ok c2)
    (hn : List.lookup nm classes = none) : List.lookup nm c2 = none := by
  cases hid : id2label tax ((i / 1000 : ℕ) : Int) with
  | none =>
    simp only [updateForInstance, hid] at h
    exact Except.noConfusion h
  | some lab =>
    by_cases hign : lab.ignoreInEval = true
    · simp only [updateForInstance, hid, hign, if_true, Except.ok.injEq] at h
      rw [← h]
      exact hn
    · have hignf : lab.ignoreInEval = false := by simpa using hign
      cases ha : List.lookup lab.name avg with
      | none =>
        simp only [updateForInstance, hid, hignf, Bool.false_eq_true,
          if_false, ha] at h
        exact Except.noConfusion h
      | some a =>
        cases hc : List.lookup lab.name classes with
        | none =>
          simp only [updateForInstance, hid, hignf, Bool.false_eq_true,
            if_false, ha, hc] at h
          exact Except.noConfusion h
        | some e =>
          simp only [updateForInstance, hid, hignf, Bool.false_eq_true,
            if_false, ha, hc, Except.ok.injEq] at h
          rw [← h]
          exact updateEntry_lookup_none nm lab.name _ classes hn

lemma instLoop_error (tax : List CsLabel) (avg : List (String × ℚ))
    (pred inst : List ℕ) (instId : ℕ) (lab : CsLabel)
    (h1 : id2label tax ((instId / 1000 : ℕ) : Int) = some lab)
    (h2 : lab.ignoreInEval = false) :
    ∀ (L : List ℕ) (classes : List (String × ClassEntry)),
      instId ∈ L → List.lookup lab.name classes = none →
      ∃ msg, instLoop tax avg pred inst L classes = .error msg := by
  intro L
  induction L with
  | nil => intro classes hmem _; simp at hmem
  | cons i rest ih =>
    intro classes hmem hnone
    cases hstep : updateForInstance tax avg pred inst classes i with
    | error msg => exact ⟨msg, by simp [instLoop, hstep]⟩
    | ok c2 =>
      have hmem2 : instId ∈ rest := by
        rcases List.mem_cons.mp hmem with he | he
        · exfalso
          rcases updateForInstance_error_of_no_class tax avg pred inst
            classes instId lab h1 h2 hnone with ⟨m, hm⟩
          rw [← he] at hstep
          rw [hstep] at hm
          exact Except.noConfusion hm
        · exact he
      have hnone2 : List.lookup lab.name c2 = none :=
        updateForInstance_preserves_none tax avg pred inst classes c2 i
          lab.name hstep hnone
      rcases ih c2 hmem2 hnone2 with ⟨m, hm⟩
      exact ⟨m, by simp [instLoop, hstep, hm]⟩

/-- Claim C10: a ground-truth instance map containing an instance id above
1000 whose decoded label exists, is not `ignoreInEval`, but has
`hasInstances = false`, makes the instance-statistics accumulation fail
with a dictionary lookup error: the `classes` mapping only has entries for
labels with `hasInstances` and not `ignoreInEval` (and `avgClassSize` is
also consulted), while the loop skips only `ignoreInEval` labels. -/
theorem c10_no_instance_label_fails (tax : List CsLabel)
    (avg : List (String × ℚ)) (pred inst : List ℕ) (instId : ℕ)
    (lab : CsLabel)
    (hmem : instId ∈ instListOf inst)
    (h1 : id2label tax ((instId / 1000 : ℕ) : Int) = some lab)
    (h2 : lab.ignoreInEval = false)
    (h3 : lab.hasInstances = false)
    (huniq : ∀ l ∈ tax, l.name = lab.name → l = lab) :
    ∃ msg, accumulateInstStats tax avg pred inst = .error msg := by
  have hnone : List.lookup lab.name (generateInstanceStatsClasses tax) = none := by
    apply classes_lookup_none
    intro l hl hname
    rcases huniq l hl hname with rfl
    exact Or.inl h3
  exact instLoop_error tax avg pred inst instId lab h1 h2 (instListOf inst)
    (generateInstanceStatsClasses tax) hmem hnone

/-- Witness for C10: a `road` instance id 7005 in a two-label taxonomy. -/
theorem c10_no_instance_label_fails_witness :
    ∃ msg, accumulateInstStats
      [⟨7, "road", "flat", false, false⟩, ⟨24, "person", "human", true, false⟩]
      [("person", 3462)] [24, 7] [24001, 7005] = .error msg :=
  c10_no_instance_label_fails
    [⟨7, "road", "flat", false, false⟩, ⟨24, "person", "human", true, false⟩]
    [("person", 3462)] [24, 7] [24001, 7005] 7005
    ⟨7, "road", "flat", false, false⟩
    (by rw [instListOf_mem]; constructor <;> simp)
    rfl rfl rfl (by decide)

/-! ### Mismatch rankers (C7, C8) -/

/-- `np.argsort(row)[::-1]`: the column indices of a row ordered by value
descending (the source leaves tie order to the underlying sort; here a
stable insertion sort resolves ties by ascending index). -/
def argsortDesc (row : List ℕ) : List ℕ :=
  List.insertionSort (fun a b => row.getD b 0 ≤ row.getD a 0)
    (List.range row.length)

/-- The inner loop of `evaluatePixelError` for one label: walk the sorted
column indices, skipping the label's own column; the counter is incremented
before printing and the loop breaks as soon as it reaches 5, so only four
confused labels are ever printed. -/
def topConfusionsGo (label : ℕ) : List ℕ → ℕ → List ℕ
  | [], _ => []
  | idx :: rest, ct =>
      if idx = label then topConfusionsGo label rest ct
      else if ct + 1 = 5 then []
      else idx :: topConfusionsGo label rest (ct + 1)

/-- The list of column indices reported for one label by
`evaluatePixelError`. -/
def topConfusions (row : List ℕ) (label : ℕ) : List ℕ :=
  topConfusionsGo label (argsortDesc row) 0

/-- One label's line of the `evaluatePixelError` report: `none` models the
"----" line printed when the label's row sum is not positive, otherwise the
reported entries `(column id, percent of this label's ground truth,
percent of the supplied total)`. -/
def pixelErrorReportForLabel (row : List ℕ) (label : ℕ)
    (totalPixelCt : ℕ) : Option (List (ℕ × ℚ × ℚ)) :=
  if row.sum ≤ 0 then none
  else some ((topConfusions row label).map (fun idx =>
    (idx, (row.getD idx 0 : ℚ) * 100 / (row.sum : ℚ),
          (row.getD idx 0 : ℚ) * 100 / (totalPixelCt : ℚ))))

/-- `allNonEdgeTruePositives`, the value `evaluatePixelAccuracy` passes to
both rankers as `totalPixelCt`: the summed diagonal over labels ≥ 4. -/
def allNonEdgeTruePositives (evalLabels : List ℕ) (M : ℕ → ℕ → ℕ) : ℕ :=
  ((evalLabels.filter (fun l => 4 ≤ l)).map (fun l => M l l)).sum

/-- The row of a confusion matrix used for the C7 failing input: label 7
has five nonzero off-diagonal confusions (columns 4, 5, 6, 8, 9). -/
def c7Row : List ℕ := [0, 0, 0, 0, 50, 40, 30, 10, 20, 60, 0, 0, 0, 0]

/-- Claim C7 is contradicted by the code: although its own printed
description says "top 5 mis matched labels", the loop increments the
counter and breaks once it reaches 5 *before* printing, so only the top 4
other labels are reported even when 5 nonzero confusions exist. -/
theorem c7_top_confusions_bug :
    topConfusions c7Row 7 = [9, 4, 5, 6] ∧
    ((List.range c7Row.length).filter
      (fun i => decide (i ≠ 7 ∧ 0 < c7Row.getD i 0))).length = 5 ∧
    pixelErrorReportForLabel c7Row 7 725 =
      some ((([9, 4, 5, 6] : List ℕ)).map (fun idx =>
        (idx, (c7Row.getD idx 0 : ℚ) * 100 / (c7Row.sum : ℚ),
              (c7Row.getD idx 0 : ℚ) * 100 / (725 : ℚ)))) := by
  refine ⟨by decide, by decide, ?_⟩
  unfold pixelErrorReportForLabel
  rw [if_neg (by decide), show topConfusions c7Row 7 = [9, 4, 5, 6] from by decide]
  norm_num

/-- All cells `(gt, pred)` of an `n × n` matrix, row-major. -/
def allCells (n : ℕ) : List (ℕ × ℕ) :=
  (List.range n).flatMap (fun i => (List.range n).map (fun j => (i, j)))

/-- `np.dstack(np.unravel_index(np.argsort(arr.ravel()), shape))[::-1]`:
all cells ordered by entry value descending. -/
def cellsSortedDesc (n : ℕ) (M : ℕ → ℕ → ℕ) : List (ℕ × ℕ) :=
  List.insertionSort (fun c d => M d.1 d.2 ≤ M c.1 c.2) (allCells n)

/-- A cell the `evaluateTrueVsOtherPixError` loop does not skip:
off-diagonal with both ids at least 4. -/
def qualCell (c : ℕ × ℕ) : Bool :=
  decide (c.1 ≠ c.2 ∧ 4 ≤ c.1 ∧ 4 ≤ c.2)

/-- The loop of `evaluateTrueVsOtherPixError`: walk the sorted cells,
skipping diagonal cells and cells with an id below 4; the counter is
incremented before printing and the loop breaks when it reaches 90, so at
most 89 qualifying cells are reported. -/
def trueVsOtherGo (M : ℕ → ℕ → ℕ) (total : ℕ) :
    List (ℕ × ℕ) → ℕ → List ((ℕ × ℕ) × ℕ × ℚ)
  | [], _ => []
  | c :: rest, ct =>
      if c.1 = c.2 ∨ c.1 < 4 ∨ c.2 < 4 then trueVsOtherGo M total rest ct
      else if ct + 1 = 90 then []
      else (c, M c.1 c.2, (M c.1 c.2 : ℚ) * 100 / (total : ℚ)) ::
        trueVsOtherGo M total rest (ct + 1)

/-- The global mismatched-pairs report of `evaluateTrueVsOtherPixError`:
each reported cell with its raw count and its percentage of the supplied
total. -/
def evaluateTrueVsOtherPixError (n : ℕ) (M : ℕ → ℕ → ℕ) (total : ℕ) :
    List ((ℕ × ℕ) × ℕ × ℚ) :=
  trueVsOtherGo M total (cellsSortedDesc n M) 0

lemma qualCell_iff (c : ℕ × ℕ) :
    qualCell c = true ↔ ¬(c.1 = c.2 ∨ c.1 < 4 ∨ c.2 < 4) := by
  unfold qualCell
  rw [decide_eq_true_eq]
  omega

lemma trueVsOtherGo_take (M : ℕ → ℕ → ℕ) (total : ℕ) :
    ∀ (L : List (ℕ × ℕ)) (ct : ℕ), ct ≤ 89 →
      trueVsOtherGo M total L ct =
        ((L.filter qualCell).take (89 - ct)).map
          (fun c => (c, M c.1 c.2, (M c.1 c.2 : ℚ) * 100 / (total : ℚ))) := by
  intro L
  induction L with
  | nil => intro ct _; simp [trueVsOtherGo]
  | cons c rest ih =>
    intro ct hct
    by_cases hq : qualCell c = true
    · have hcond : ¬(c.1 = c.2 ∨ c.1 < 4 ∨ c.2 < 4) := (qualCell_iff c).mp hq
      rw [trueVsOtherGo, if_neg hcond]
      by_cases h90 : ct + 1 = 90
      · rw [if_pos h90]
        have hz : 89 - ct = 0 := by omega
        rw [List.filter_cons, if_pos hq, hz, List.take_zero, List.map_nil]
      · rw [if_neg h90, ih (ct + 1) (by omega), List.filter_cons, if_pos hq,
          show 89 - ct = (89 - (ct + 1)) + 1 from by omega,
          List.take_succ_cons, List.map_cons]
    · have hqf : qualCell c = false := by simpa using hq
      have hcond : c.1 = c.2 ∨ c.1 < 4 ∨ c.2 < 4 := by
        by_contra hno
        exact hq ((qualCell_iff c).mpr hno)
      rw [trueVsOtherGo, if_pos hcond, ih ct hct, List.filter_cons,
        if_neg (by simp [hqf])]

/-- Claim C8 (amended): the report walks all `(gt, pred)` cells in
descending order of count, skips diagonal cells and cells with either id
below 4, and reports **at most 89** qualifying cells (the counter breaks at
90 before printing), each with its raw count and its count as a percentage
of the supplied total — which the caller (`evaluatePixelAccuracy`) sets to
the summed diagonal of labels ≥ 4, not the total of all evaluated pixels. -/
theorem c8_true_vs_other_report (n : ℕ) (M : ℕ → ℕ → ℕ) (total : ℕ) :
    evaluateTrueVsOtherPixError n M total =
      (((cellsSortedDesc n M).filter qualCell).take 89).map
        (fun c => (c, M c.1 c.2, (M c.1 c.2 : ℚ) * 100 / (total : ℚ))) ∧
    List.Sorted (fun c d => M d.1 d.2 ≤ M c.1 c.2) (cellsSortedDesc n M) := by
  constructor
  · have h := trueVsOtherGo_take M total (cellsSortedDesc n M) 0 (by omega)
    simpa [evaluateTrueVsOtherPixError] using h
  · haveI ht : IsTotal (ℕ × ℕ) (fun c d => M d.1 d.2 ≤ M c.1 c.2) :=
      ⟨fun a b => Nat.le_total (M b.1 b.2) (M a.1 a.2)⟩
    haveI htr : IsTrans (ℕ × ℕ) (fun c d => M d.1 d.2 ≤ M c.1 c.2) :=
      ⟨fun a b c hab hbc => le_trans hbc hab⟩
    exact List.sorted_insertionSort _ _

/-- The matrix of the C8 counterexample: a 14×14 matrix with pairwise
distinct positive entries, giving exactly 90 qualifying cells. -/
def c8Mat : ℕ → ℕ → ℕ := fun i j =>
  if i < 14 ∧ j < 14 then 200 - (14 * i + j) else 0

set_option maxRecDepth 100000 in
/-- Counterexample for C8 as stated: with 90 qualifying cells present the
report contains only 89 entries, not "up to the top 90"; moreover the
percentage denominator the caller supplies (the summed ≥4 diagonal, 725)
differs from the total of evaluated pixels (20090). -/
theorem c8_counterexample :
    ((allCells 14).filter qualCell).length = 90 ∧
    (evaluateTrueVsOtherPixError 14 c8Mat 725).length = 89 ∧
    allNonEdgeTruePositives (List.range 14) c8Mat = 725 ∧
    matSum 14 c8Mat = 20090 := by
  refine ⟨by decide, by decide, by decide, by decide⟩
